import Mathlib

/-!
Meraki exporter: a shallow embedding of `main.go`.

The exporter polls the Meraki uplink-usage endpoint on a fixed cadence and
republishes the counters as two Prometheus gauge families.  This file embeds

* the decoded response type `MerakiAPIResponse`,
* the two gauge vectors `sentBytes` / `receivedBytes` (the process-wide registry),
* `updateMetrics`, both as the nested loop of the source and as the sequence of
  individual gauge writes it performs,
* `fetchMerakiData` against an explicit model of the HTTP exchange,
* one cycle of the scheduler goroutine, and
* the start-up part of `main` (environment, `strconv.Atoi`, `time.Duration`
  arithmetic, the `timespan` argument).

Conventions.  Go `string`s are Lean `String`s, `int`/`int64` are `Int` with explicit
two-complement wrapping where the source multiplies (`int` is 64 bits wide, as on
amd64/arm64), and a finite `float64` is the exact dyadic rational it denotes.
-/

set_option maxRecDepth 100000

namespace MerakiExporter

/-! ## `float64` -/

/-- A finite IEEE-754 double, kept as the exact dyadic rational `num / 2 ^ exp` it
denotes.  Values produced by `F64.ofFrac` are in lowest terms, so structural equality
is numerical equality. -/
structure F64 where
  num : Int
  exp : Nat
deriving DecidableEq

/-- Helper for `F64.bitLen`: at most `fuel` halvings. -/
def F64.bitLenAux : Nat → Nat → Nat
  | 0, _ => 0
  | fuel + 1, n => if n = 0 then 0 else F64.bitLenAux fuel (n / 2) + 1

/-- Number of binary digits of `n` (`0` for `0`), so `2 ^ (bitLen n - 1) ≤ n < 2 ^ bitLen n`. -/
def F64.bitLen (n : Nat) : Nat := F64.bitLenAux n n

/-- Lowest terms of `m / 2 ^ k`. -/
def F64.normalize : Int → Nat → F64
  | m, 0 => ⟨m, 0⟩
  | m, k + 1 => if m % 2 = 0 then F64.normalize (m / 2) k else ⟨m, k + 1⟩

/-- The integer `e` with `2 ^ e ≤ a / d < 2 ^ (e + 1)`, for `a, d > 0`. -/
def F64.floorLog2 (a d : Nat) : Int :=
  let e0 : Int := (F64.bitLen a : Int) - (F64.bitLen d : Int)
  if (if 0 ≤ e0 then d * 2 ^ e0.toNat ≤ a else d ≤ a * 2 ^ (-e0).toNat) then e0 else e0 - 1

/-- Nearest natural number to `n / d`, ties to the even one. -/
def F64.roundHalfEven (n d : Nat) : Nat :=
  let q := n / d
  let r := n % d
  if 2 * r < d then q else if d < 2 * r then q + 1 else if q % 2 = 0 then q else q + 1

/-- The double nearest to the rational `n / d` (round to nearest, ties to even; 53-bit
significand, gradual underflow below `2 ^ (-1022)`).  Overflow to infinity is not
modelled: every number this program converts is below `2 ^ 64` in magnitude. -/
def F64.ofFrac (n : Int) (d : Nat) : F64 :=
  if n = 0 then ⟨0, 0⟩ else
    let a := n.natAbs
    let s : Int := max (F64.floorLog2 a d) (-1022) - 52
    if 0 ≤ s then
      ⟨n.sign * ((F64.roundHalfEven a (d * 2 ^ s.toNat) * 2 ^ s.toNat : Nat) : Int), 0⟩
    else
      F64.normalize (n.sign * ((F64.roundHalfEven (a * 2 ^ (-s).toNat) d : Nat) : Int)) (-s).toNat

/-- Go conversion `float64(x)` of an integer. -/
def F64.ofInt (x : Int) : F64 := F64.ofFrac x 1

/-- Go `a + b` on doubles: the exact sum, rounded. -/
def F64.add (a b : F64) : F64 :=
  F64.ofFrac (a.num * 2 ^ b.exp + b.num * 2 ^ a.exp) (2 ^ (a.exp + b.exp))

/-- Go `a / b` on doubles, for `b ≠ 0`: the exact quotient, rounded. -/
def F64.div (a b : F64) : F64 :=
  F64.ofFrac (b.num.sign * a.num * 2 ^ b.exp) (b.num.natAbs * 2 ^ a.exp)

/-- Go conversion `int(f)`: truncation toward zero. -/
def F64.toInt (a : F64) : Int := Int.tdiv a.num (2 ^ a.exp)

/-! ## Decoded upstream response -/

/-- One element of `byUplink`; `Sent` and `Received` are `int64` in the source. -/
structure Uplink where
  Serial : String
  Interface : String
  Sent : Int
  Received : Int
deriving DecidableEq

/-- One element of the response array. -/
structure Network where
  NetworkID : String
  Name : String
  ByUplink : List Uplink
deriving DecidableEq

/-- The Go type `MerakiAPIResponse`: a slice of network records. -/
abbrev MerakiAPIResponse := List Network

/-! ## Gauge vectors and the registry -/

/-- The value of a `prometheus.Labels` map over the four label names of both families:
the identity of one series. -/
structure Labels where
  networkId : String
  name : String
  serial : String
  interface : String
deriving DecidableEq

/-- A `prometheus.GaugeVec`: the gauges created so far, by label values. -/
def GaugeVec := Labels → Option F64

/-- A freshly constructed `GaugeVec` has no children. -/
def GaugeVec.empty : GaugeVec := fun _ => none

/-- The call `vec.With(labels)`: get the child gauge, creating it with value `0` when
it does not exist yet.  Only the effect on the vector is kept. -/
def GaugeVec.With (g : GaugeVec) (labels : Labels) : GaugeVec :=
  fun k => if k = labels then (match g labels with
    | some v => some v
    | none => some ⟨0, 0⟩) else g k

/-- The call `Set(v)` on the child gauge for `labels`. -/
def GaugeVec.Set (g : GaugeVec) (labels : Labels) (v : F64) : GaugeVec :=
  fun k => if k = labels then (g labels).map (fun _ => v) else g k

/-- The two package-level gauge vectors. -/
@[ext]
structure Registry where
  sentBytes : GaugeVec
  receivedBytes : GaugeVec

/-- State at process start: both vectors constructed, nothing written. -/
def Registry.empty : Registry := ⟨GaugeVec.empty, GaugeVec.empty⟩

/-- The `labels` map built in the body of the inner loop. -/
def labelsOf (network : Network) (uplink : Uplink) : Labels :=
  { networkId := network.NetworkID, name := network.Name,
    serial := uplink.Serial, interface := uplink.Interface }

/-- Body of the inner loop of `updateMetrics`. -/
def updateUplink (network : Network) (reg : Registry) (uplink : Uplink) : Registry :=
  let labels := labelsOf network uplink
  let reg : Registry :=
    { reg with sentBytes := (reg.sentBytes.With labels).Set labels (F64.ofInt uplink.Sent) }
  { reg with
    receivedBytes := (reg.receivedBytes.With labels).Set labels (F64.ofInt uplink.Received) }

/-- The function `updateMetrics`: for every network, for every uplink, set both gauges. -/
def updateMetrics (data : MerakiAPIResponse) (reg : Registry) : Registry :=
  data.foldl (fun reg network => network.ByUplink.foldl (updateUplink network) reg) reg

/-- The uplink records of a snapshot in iteration order, each with its series key. -/
def records (data : MerakiAPIResponse) : List (Labels × Uplink) :=
  data.flatMap (fun network => network.ByUplink.map (fun uplink => (labelsOf network uplink, uplink)))

/-- Effect of one inner-loop iteration on the registry, by series key and record. -/
def setRecord (reg : Registry) (r : Labels × Uplink) : Registry :=
  { sentBytes := (reg.sentBytes.With r.1).Set r.1 (F64.ofInt r.2.Sent),
    receivedBytes := (reg.receivedBytes.With r.1).Set r.1 (F64.ofInt r.2.Received) }

/-- The last record with series key `k` in a list of records, if there is one. -/
def lastRecord : List (Labels × Uplink) → Labels → Option Uplink
  | [], _ => none
  | r :: rs, k =>
    match lastRecord rs k with
    | some u => some u
    | none => if r.1 = k then some r.2 else none

/-- The series keys of a snapshot, in iteration order, with repetitions. -/
def seriesKeys (data : MerakiAPIResponse) : List Labels :=
  (records data).map Prod.fst

/-- The snapshot of the label-mapping scenario. -/
def exampleSnapshot : MerakiAPIResponse :=
  [{ NetworkID := "N1", Name := "Branch1",
     ByUplink := [{ Serial := "S1", Interface := "wan1", Sent := 100, Received := 200 }] }]

/-- The series key of the label-mapping scenario. -/
def exampleKey : Labels :=
  { networkId := "N1", name := "Branch1", serial := "S1", interface := "wan1" }

/-- A second series key, on the same device as `exampleKey`. -/
def exampleKeyB : Labels :=
  { networkId := "N1", name := "Branch1", serial := "S1", interface := "wan2" }

/-- A snapshot containing only the series `exampleKeyB`. -/
def laterSnapshot : MerakiAPIResponse :=
  [{ NetworkID := "N1", Name := "Branch1",
     ByUplink := [{ Serial := "S1", Interface := "wan2", Sent := 30, Received := 40 }] }]

/-- A snapshot whose only uplink reports `2 ^ 53 + 1` bytes sent. -/
def hugeSnapshot : MerakiAPIResponse :=
  [{ NetworkID := "N1", Name := "Branch1",
     ByUplink := [{ Serial := "S1", Interface := "wan1",
                    Sent := 9007199254740993, Received := 200 }] }]

/-- A snapshot in which one series key occurs twice with different counters. -/
def duplicateSnapshot : MerakiAPIResponse :=
  [{ NetworkID := "N1", Name := "Branch1",
     ByUplink := [{ Serial := "S1", Interface := "wan1", Sent := 1, Received := 1 },
                  { Serial := "S1", Interface := "wan1", Sent := 2, Received := 2 }] }]

/-- The snapshot `duplicateSnapshot` with its two uplink records swapped. -/
def duplicateSnapshotSwapped : MerakiAPIResponse :=
  [{ NetworkID := "N1", Name := "Branch1",
     ByUplink := [{ Serial := "S1", Interface := "wan1", Sent := 2, Received := 2 },
                  { Serial := "S1", Interface := "wan1", Sent := 1, Received := 1 }] }]

/-- A snapshot with two networks and three pairwise distinct series keys. -/
def distinctSnapshot : MerakiAPIResponse :=
  [{ NetworkID := "N1", Name := "Branch1",
     ByUplink := [{ Serial := "S1", Interface := "wan1", Sent := 1, Received := 2 },
                  { Serial := "S1", Interface := "wan2", Sent := 3, Received := 4 }] },
   { NetworkID := "N2", Name := "Branch2",
     ByUplink := [{ Serial := "S2", Interface := "wan1", Sent := 5, Received := 6 }] }]

/-- The snapshot `distinctSnapshot` with networks and uplinks in another order. -/
def distinctSnapshotReordered : MerakiAPIResponse :=
  [{ NetworkID := "N2", Name := "Branch2",
     ByUplink := [{ Serial := "S2", Interface := "wan1", Sent := 5, Received := 6 }] },
   { NetworkID := "N1", Name := "Branch1",
     ByUplink := [{ Serial := "S1", Interface := "wan2", Sent := 3, Received := 4 },
                  { Serial := "S1", Interface := "wan1", Sent := 1, Received := 2 }] }]

/-- Two network records describe the same network with reordered uplinks. -/
def Network.Reordered (n m : Network) : Prop :=
  n.NetworkID = m.NetworkID ∧ n.Name = m.Name ∧ n.ByUplink.Perm m.ByUplink

/-- The snapshot `t` is a reordering of `s`: the uplink records inside each network
record are permuted, and so are the network records. -/
def Reordering (s t : MerakiAPIResponse) : Prop :=
  ∃ m : MerakiAPIResponse, List.Forall₂ Network.Reordered s m ∧ m.Perm t

/-- Records that share a series key carry the same counters. -/
def Consistent (data : MerakiAPIResponse) : Prop :=
  ∀ r₁ ∈ records data, ∀ r₂ ∈ records data, r₁.1 = r₂.1 →
    r₁.2.Sent = r₂.2.Sent ∧ r₁.2.Received = r₂.2.Received

/-! ## `updateMetrics` as a sequence of individual gauge writes

Each statement `vec.With(labels).Set(v)` is two operations on one gauge vector.  Nothing
in the source synchronises the writer with the `/metrics` handler, which gathers the two
vectors as two separate collectors and loads every gauge on its own. -/

/-- One individual operation on one of the two gauge vectors. -/
inductive Write where
  | sentWith (labels : Labels)
  | sentSet (labels : Labels) (v : F64)
  | receivedWith (labels : Labels)
  | receivedSet (labels : Labels) (v : F64)
deriving DecidableEq

/-- Effect of one write on the registry. -/
def Write.apply (reg : Registry) : Write → Registry
  | .sentWith labels => { reg with sentBytes := reg.sentBytes.With labels }
  | .sentSet labels v => { reg with sentBytes := reg.sentBytes.Set labels v }
  | .receivedWith labels => { reg with receivedBytes := reg.receivedBytes.With labels }
  | .receivedSet labels v => { reg with receivedBytes := reg.receivedBytes.Set labels v }

/-- The four writes of one iteration of the inner loop, in program order. -/
def recordWrites (r : Labels × Uplink) : List Write :=
  [.sentWith r.1, .sentSet r.1 (F64.ofInt r.2.Sent),
   .receivedWith r.1, .receivedSet r.1 (F64.ofInt r.2.Received)]

/-- All writes of `updateMetrics data`, in program order. -/
def updateMetricsWrites (data : MerakiAPIResponse) : List Write :=
  (records data).flatMap recordWrites

/-- Run a sequence of writes. -/
def applyWrites (ws : List Write) (reg : Registry) : Registry :=
  ws.foldl Write.apply reg

/-- The registry states that exist while `updateMetrics data` runs from `reg`: the state
after each prefix of its writes (the empty and the full one included). -/
def registryStates (data : MerakiAPIResponse) (reg : Registry) : List Registry :=
  (updateMetricsWrites data).inits.map (fun p => applyWrites p reg)

/-- The sent/received pair of one series key in one registry state. -/
def Registry.pair (reg : Registry) (k : Labels) : Option F64 × Option F64 :=
  (reg.sentBytes k, reg.receivedBytes k)

/-- The sent/received pairs a scrape of `/metrics` can show for the key `k` while
`updateMetrics data` runs from `reg`.  The handler `promhttp.Handler()` reads
`sentBytes` and `receivedBytes` as two separately registered collectors, each gauge at
its own instant and without any lock shared with the writer: the sent value shown is the
one of some state of the run, the received value the one of some state of the run, and
the two states need not be the same nor in program order. -/
def renderedPairs (data : MerakiAPIResponse) (reg : Registry) (k : Labels) :
    List (Option F64 × Option F64) :=
  (registryStates data reg).flatMap (fun σ₁ =>
    (registryStates data reg).map (fun σ₂ => (σ₁.sentBytes k, σ₂.receivedBytes k)))

/-- The pair `shown` for `k` is not torn: it is the pair `k` had in `reg` before
`updateMetrics data` started, or the sent and received of one single record of `data`. -/
def Untorn (data : MerakiAPIResponse) (reg : Registry) (k : Labels)
    (shown : Option F64 × Option F64) : Prop :=
  shown = reg.pair k ∨
    ∃ r ∈ records data, r.1 = k ∧
      shown = (some (F64.ofInt r.2.Sent), some (F64.ofInt r.2.Received))

/-- What one gauge of the key `k` can hold during a run of `updateMetrics data`: what it
held before (`old`, possibly no series), `0` when the series did not exist and has just
been created, or `float64` of the counter of a record of `data` with key `k`. -/
def GaugeValueOfRun (data : MerakiAPIResponse) (counter : Uplink → Int) (k : Labels)
    (old v : Option F64) : Prop :=
  v = old ∨ (old = none ∧ v = some ⟨0, 0⟩) ∨
    ∃ r ∈ records data, r.1 = k ∧ v = some (F64.ofInt (counter r.2))

/-- A snapshot with one uplink record for `exampleKey`, counters 1 and 1. -/
def oldSnapshot : MerakiAPIResponse :=
  [{ NetworkID := "N1", Name := "Branch1",
     ByUplink := [{ Serial := "S1", Interface := "wan1", Sent := 1, Received := 1 }] }]

/-- A snapshot with one uplink record for `exampleKey`, counters 2 and 2. -/
def newSnapshot : MerakiAPIResponse :=
  [{ NetworkID := "N1", Name := "Branch1",
     ByUplink := [{ Serial := "S1", Interface := "wan1", Sent := 2, Received := 2 }] }]

/-! ## Fetching -/

/-- An `http.Request` as far as `fetchMerakiData` builds it. -/
structure Request where
  method : String
  url : String
  header : List (String × String)
deriving DecidableEq

/-- The call `req.Header.Add(key, value)`. -/
def Request.headerAdd (req : Request) (key value : String) : Request :=
  { req with header := req.header ++ [(key, value)] }

/-- An `http.Response` as far as `fetchMerakiData` reads it: the status code and what
`json.NewDecoder(resp.Body).Decode(&data)` makes of the body. -/
structure Response where
  StatusCode : Int
  Decode : Except String MerakiAPIResponse

/-- What the outside world does during one fetch: whether
`http.NewRequestWithContext` accepts the URL, and what `httpClient.Do` returns
(timeouts and cancellation are transport errors). -/
structure Upstream where
  NewRequestWithContext : String → String → Except String Request
  Do : Request → Except String Response

/-- The URL built by the `fmt.Sprintf` call. -/
def requestURL (organizationID interval : String) : String :=
  "https://api.meraki.com/api/v1/organizations/" ++ organizationID ++
    "/appliance/uplinks/usage/byNetwork?timespan=" ++ interval

/-- The function `fetchMerakiData`. -/
def fetchMerakiData (up : Upstream) (organizationID apiKey interval : String) :
    Except String MerakiAPIResponse :=
  let url := requestURL organizationID interval
  match up.NewRequestWithContext "GET" url with
  | .error err => .error ("failed to create request: " ++ err)
  | .ok req =>
    let req := req.headerAdd "Accept" "application/json"
    let req := req.headerAdd "Authorization" ("Bearer " ++ apiKey)
    match up.Do req with
    | .error err => .error ("request failed: " ++ err)
    | .ok resp =>
      if resp.StatusCode ≠ 200 then
        .error ("unexpected status code " ++ toString resp.StatusCode)
      else
        match resp.Decode with
        | .error err => .error ("failed to decode response: " ++ err)
        | .ok data => .ok data

/-! ## `time.Duration` and `strconv` -/

/-- Two-complement wrap-around of a mathematical integer into `int64`. -/
def wrapInt64 (x : Int) : Int := (x + 2 ^ 63) % 2 ^ 64 - 2 ^ 63

/-- The constant `time.Second`, in nanoseconds. -/
def Second : Int := 1000000000

/-- The expression `time.Duration(i) * time.Second`: an `int64` multiplication. -/
def durationOfSeconds (i : Int) : Int := wrapInt64 (i * Second)

/-- The method `Duration.Seconds`: `float64(d / Second) + float64(d % Second) / 1e9`. -/
def Seconds (d : Int) : F64 :=
  let sec := Int.tdiv d Second
  let nsec := Int.tmod d Second
  F64.add (F64.ofInt sec) (F64.div (F64.ofInt nsec) (F64.ofInt 1000000000))

/-- The call `time.Sleep(d)`: how long it pauses the goroutine at least, in nanoseconds.
A negative or zero duration makes `Sleep` return immediately. -/
def Sleep (d : Int) : Int := if d ≤ 0 then 0 else d

/-- The function `strconv.Itoa`. -/
def Itoa (i : Int) : String := toString i

/-- The function `strconv.Atoi` for a 64-bit `int`: an optional sign, then one or more
decimal digits, denoting a value in `[-2 ^ 63, 2 ^ 63 - 1]`; `none` is any error. -/
def Atoi (s : String) : Option Int :=
  let cs := s.toList
  let neg := cs.head? = some '-'
  let ds := if cs.head? = some '-' ∨ cs.head? = some '+' then cs.tail else cs
  if ds = [] then none
  else if ds.all Char.isDigit then
    let un : Nat := ds.foldl (fun n c => 10 * n + (c.toNat - 48)) 0
    if neg then (if un ≤ 2 ^ 63 then some (-(un : Int)) else none)
    else (if un < 2 ^ 63 then some (un : Int) else none)
  else none

/-- The `timespan` argument the scheduler passes to `fetchMerakiData`:
`strconv.Itoa(int(interval.Seconds()))`. -/
def timespan (interval : Int) : String := Itoa (F64.toInt (Seconds interval))

/-! ## The scheduler goroutine -/

/-- One iteration of the scheduler loop, up to the sleep: fetch, and on success
reconcile; on error only log.  The loop then pauses for `Sleep interval` and repeats. -/
def schedulerCycle (organizationID apiKey : String) (interval : Int)
    (reg : Registry) (up : Upstream) : Registry :=
  match fetchMerakiData up organizationID apiKey (timespan interval) with
  | .error _ => reg
  | .ok data => updateMetrics data reg

/-- The first iterations of the scheduler loop, one per element of `ups`. -/
def runScheduler (organizationID apiKey : String) (interval : Int)
    (ups : List Upstream) (reg : Registry) : Registry :=
  ups.foldl (schedulerCycle organizationID apiKey interval) reg

/-- An upstream that answers 200 with a body decoding to `data`. -/
def Upstream.ok (data : MerakiAPIResponse) : Upstream :=
  { NewRequestWithContext := fun method url => .ok ⟨method, url, []⟩,
    Do := fun _ => .ok ⟨200, .ok data⟩ }

/-- The four ways a fetch fails. -/
inductive FetchFailure where
  | newRequest (err : String)
  | transport (err : String)
  | status (code : Int) (body : Except String MerakiAPIResponse)
  | decode (err : String)

/-- An upstream exhibiting the given failure. -/
def Upstream.failing : FetchFailure → Upstream
  | .newRequest err =>
    { NewRequestWithContext := fun _ _ => .error err, Do := fun _ => .ok ⟨200, .ok []⟩ }
  | .transport err =>
    { NewRequestWithContext := fun method url => .ok ⟨method, url, []⟩,
      Do := fun _ => .error err }
  | .status code body =>
    { NewRequestWithContext := fun method url => .ok ⟨method, url, []⟩,
      Do := fun _ => .ok ⟨code, body⟩ }
  | .decode err =>
    { NewRequestWithContext := fun method url => .ok ⟨method, url, []⟩,
      Do := fun _ => .ok ⟨200, .error err⟩ }

/-- The request `fetchMerakiData` hands to `httpClient.Do`, given the one
`http.NewRequestWithContext` returned. -/
def sentRequest (req : Request) (apiKey : String) : Request :=
  (req.headerAdd "Accept" "application/json").headerAdd "Authorization" ("Bearer " ++ apiKey)

/-- The fetch against `up` with these arguments fails in one of the four ways the source
distinguishes: request creation error, transport error, status code other than 200, or
body decode error. -/
def FetchFails (up : Upstream) (organizationID apiKey interval : String) : Prop :=
  (∃ err, up.NewRequestWithContext "GET" (requestURL organizationID interval) = .error err) ∨
  ∃ req, up.NewRequestWithContext "GET" (requestURL organizationID interval) = .ok req ∧
    ((∃ err, up.Do (sentRequest req apiKey) = .error err) ∨
     ∃ resp, up.Do (sentRequest req apiKey) = .ok resp ∧
       (resp.StatusCode ≠ 200 ∨ (resp.StatusCode = 200 ∧ ∃ err, resp.Decode = .error err)))

/-- The fetch against `up` with these arguments goes through: the request is created,
the response has status 200 and its body decodes to `data`. -/
def FetchOK (up : Upstream) (organizationID apiKey interval : String)
    (data : MerakiAPIResponse) : Prop :=
  ∃ req resp, up.NewRequestWithContext "GET" (requestURL organizationID interval) = .ok req ∧
    up.Do (sentRequest req apiKey) = .ok resp ∧
    resp.StatusCode = 200 ∧ resp.Decode = .ok data

/-! ## Start-up -/

/-- The three environment variables `main` reads; `os.Getenv` gives `""` when unset.
Values are taken to be valid UTF-8. -/
structure Environ where
  MERAKI_ORGANIZATION_ID : String
  MERAKI_API_KEY : String
  INTERVAL : String
deriving DecidableEq

/-- The externally visible steps of `main`, in program order.  `fatal` is a `log.Fatalf`
call, `goScheduler` the `go func()` statement (the goroutine then runs `runScheduler`
with the captured identifier, key and interval), `listenAndServe` the final
`http.ListenAndServe`. -/
inductive Event where
  | fatal (msg : String)
  | logInterval (interval : Int)
  | registerMetrics
  | goScheduler (organizationID apiKey : String) (interval : Int)
  | handleRedirect (pattern target : String) (code : Nat)
  | handleMetrics (pattern : String)
  | listenAndServe (addr : String)
deriving DecidableEq

/-- The interval `main` computes from `INTERVAL`, or the message of `log.Fatalf`. -/
def parseInterval (intervalStr : String) : Except String Int :=
  if intervalStr ≠ "" then
    match Atoi intervalStr with
    | some i => .ok (durationOfSeconds i)
    | none => .error ("Invalid INTERVAL value: " ++ intervalStr)
  else .ok (60 * Second)

/-- The function `main` up to the blocking `http.ListenAndServe`: the steps it takes.
`log.Fatalf` exits the process, so nothing follows a `fatal`. -/
def main (env : Environ) : List Event :=
  let organizationID := env.MERAKI_ORGANIZATION_ID
  let apiKey := env.MERAKI_API_KEY
  let intervalStr := env.INTERVAL
  if organizationID = "" ∨ apiKey = "" then
    [.fatal "MERAKI_ORGANIZATION_ID and MERAKI_API_KEY environment variables are required"]
  else
    match parseInterval intervalStr with
    | .error msg => [.fatal msg]
    | .ok interval =>
      [.logInterval interval, .registerMetrics, .goScheduler organizationID apiKey interval,
       .handleRedirect "/" "/metrics" 301, .handleMetrics "/metrics", .listenAndServe ":8080"]

/-- The steps of a start-up that proceeds with the given settings. -/
def startedWith (organizationID apiKey : String) (interval : Int) : List Event :=
  [.logInterval interval, .registerMetrics, .goScheduler organizationID apiKey interval,
   .handleRedirect "/" "/metrics" 301, .handleMetrics "/metrics", .listenAndServe ":8080"]

/-! ## Lemmas: float64 -/

theorem F64.bitLenAux_zero (fuel : Nat) : F64.bitLenAux fuel 0 = 0 := by
  cases fuel <;> simp [F64.bitLenAux]

theorem F64.bitLenAux_bounds : ∀ fuel n : Nat, n ≤ fuel → n ≠ 0 →
    2 ^ (F64.bitLenAux fuel n - 1) ≤ n ∧ n < 2 ^ F64.bitLenAux fuel n ∧
      1 ≤ F64.bitLenAux fuel n := by
  intro fuel
  induction fuel with
  | zero => intro n h h0; omega
  | succ fuel ih =>
    intro n hn h0
    simp only [F64.bitLenAux, if_neg h0]
    by_cases h2 : n / 2 = 0
    · rw [h2, F64.bitLenAux_zero]
      have : n = 1 := by omega
      subst this
      simp
    · obtain ⟨h1, h3, h4⟩ := ih (n / 2) (by omega) h2
      refine ⟨?_, ?_, by omega⟩
      · have e : F64.bitLenAux fuel (n / 2) + 1 - 1 = (F64.bitLenAux fuel (n / 2) - 1) + 1 := by
          omega
        rw [e, pow_succ]
        omega
      · rw [pow_succ]
        omega

theorem F64.bitLen_bounds (n : Nat) (h0 : n ≠ 0) :
    2 ^ (F64.bitLen n - 1) ≤ n ∧ n < 2 ^ F64.bitLen n ∧ 1 ≤ F64.bitLen n :=
  F64.bitLenAux_bounds n n le_rfl h0

theorem F64.normalize_mul_pow (m : Int) (t : Nat) : F64.normalize (m * 2 ^ t) t = ⟨m, 0⟩ := by
  induction t with
  | zero => simp [F64.normalize]
  | succ t ih =>
    have h1 : (m * 2 ^ (t + 1)) % 2 = 0 := by
      rw [pow_succ, ← mul_assoc]
      exact Int.mul_emod_left _ _
    have h2 : (m * 2 ^ (t + 1)) / 2 = m * 2 ^ t := by
      rw [pow_succ, ← mul_assoc]
      exact Int.mul_ediv_cancel _ (by norm_num)
    simp only [F64.normalize, h1, if_true, h2, ih]

theorem F64.roundHalfEven_one (n : Nat) : F64.roundHalfEven n 1 = n := by
  simp [F64.roundHalfEven, Nat.mod_one]

/-- Conversion to `float64` is exact for integers of magnitude below `2 ^ 53`. -/
theorem F64.ofInt_exact_lt (x : Int) (h : x.natAbs < 2 ^ 53) : F64.ofInt x = ⟨x, 0⟩ := by
  unfold F64.ofInt F64.ofFrac
  by_cases hx : x = 0
  · simp [hx]
  rw [if_neg hx]
  have ha : x.natAbs ≠ 0 := by simpa using hx
  obtain ⟨h1, h2, h3⟩ := F64.bitLen_bounds x.natAbs ha
  have hb : F64.bitLen x.natAbs ≤ 53 := by
    by_contra hc
    have : 2 ^ 53 ≤ 2 ^ (F64.bitLen x.natAbs - 1) :=
      Nat.pow_le_pow_right (by norm_num) (by omega)
    omega
  have hone : F64.bitLen 1 = 1 := by decide
  have hfl : F64.floorLog2 x.natAbs 1 = (F64.bitLen x.natAbs : Int) - 1 := by
    unfold F64.floorLog2
    simp only [hone]
    have e0 : (0 : Int) ≤ (F64.bitLen x.natAbs : Int) - ((1 : Nat) : Int) := by
      push_cast; omega
    have e1 : ((F64.bitLen x.natAbs : Int) - ((1 : Nat) : Int)).toNat
        = F64.bitLen x.natAbs - 1 := by
      push_cast; omega
    simp only [e0, if_true, e1, one_mul, h1]
    push_cast
    rfl
  simp only [hfl]
  have hs : max ((F64.bitLen x.natAbs : Int) - 1) (-1022) - 52
      = (F64.bitLen x.natAbs : Int) - 53 := by
    rw [max_eq_left (by omega)]; ring
  rw [hs]
  by_cases h53 : F64.bitLen x.natAbs = 53
  · have z : (F64.bitLen x.natAbs : Int) - 53 = 0 := by omega
    simp only [z, le_refl, if_true, Int.toNat_zero, pow_zero, mul_one, F64.roundHalfEven_one]
    rw [Int.sign_mul_natAbs]
  · have hneg : ¬ (0 : Int) ≤ (F64.bitLen x.natAbs : Int) - 53 := by omega
    rw [if_neg hneg, F64.roundHalfEven_one]
    push_cast
    rw [← mul_assoc, Int.sign_mul_abs]
    exact F64.normalize_mul_pow x _

/-- Conversion to `float64` is exact for integers of magnitude up to `2 ^ 53`. -/
theorem F64.ofInt_exact (x : Int) (h : x.natAbs ≤ 2 ^ 53) : F64.ofInt x = ⟨x, 0⟩ := by
  rcases Nat.lt_or_ge x.natAbs (2 ^ 53) with h1 | h1
  · exact F64.ofInt_exact_lt x h1
  · have h2 : x.natAbs = 2 ^ 53 := le_antisymm h h1
    rcases Int.natAbs_eq x with h3 | h3
    · rw [h3, h2]; decide
    · rw [h3, h2]; decide

/-! ## Lemmas: gauge vectors and `updateMetrics` -/

theorem GaugeVec.with_set_apply (g : GaugeVec) (l : Labels) (v : F64) (k : Labels) :
    ((g.With l).Set l v) k = if k = l then some v else g k := by
  unfold GaugeVec.Set GaugeVec.With
  by_cases h : k = l
  · simp only [h, if_true]
    cases g l <;> rfl
  · simp only [h, if_false]

theorem setRecord_sentBytes (reg : Registry) (r : Labels × Uplink) (k : Labels) :
    (setRecord reg r).sentBytes k
      = if k = r.1 then some (F64.ofInt r.2.Sent) else reg.sentBytes k :=
  GaugeVec.with_set_apply _ _ _ _

theorem setRecord_receivedBytes (reg : Registry) (r : Labels × Uplink) (k : Labels) :
    (setRecord reg r).receivedBytes k
      = if k = r.1 then some (F64.ofInt r.2.Received) else reg.receivedBytes k :=
  GaugeVec.with_set_apply _ _ _ _

theorem updateUplink_eq (network : Network) (reg : Registry) (uplink : Uplink) :
    updateUplink network reg uplink = setRecord reg (labelsOf network uplink, uplink) := rfl

theorem foldl_updateUplink (network : Network) (us : List Uplink) (reg : Registry) :
    us.foldl (updateUplink network) reg
      = (us.map (fun uplink => (labelsOf network uplink, uplink))).foldl setRecord reg := by
  induction us generalizing reg with
  | nil => rfl
  | cons u us ih => simp only [List.foldl_cons, List.map_cons, ih, updateUplink_eq]

theorem records_nil : records [] = [] := rfl

theorem records_cons (n : Network) (data : MerakiAPIResponse) :
    records (n :: data)
      = n.ByUplink.map (fun uplink => (labelsOf n uplink, uplink)) ++ records data := by
  simp [records]

/-- The nested loop is one pass over the records in iteration order. -/
theorem updateMetrics_eq_foldl (data : MerakiAPIResponse) (reg : Registry) :
    updateMetrics data reg = (records data).foldl setRecord reg := by
  induction data generalizing reg with
  | nil => rfl
  | cons n data ih =>
    rw [records_cons, List.foldl_append, ← foldl_updateUplink, ← ih]
    rfl

theorem foldl_setRecord_sentBytes (rs : List (Labels × Uplink)) (reg : Registry) (k : Labels) :
    (rs.foldl setRecord reg).sentBytes k
      = match lastRecord rs k with
        | some u => some (F64.ofInt u.Sent)
        | none => reg.sentBytes k := by
  induction rs generalizing reg with
  | nil => rfl
  | cons r rs ih =>
    rw [List.foldl_cons, ih, lastRecord]
    cases h : lastRecord rs k with
    | some u => rfl
    | none =>
      simp only [setRecord_sentBytes]
      by_cases hk : r.1 = k
      · simp [hk]
      · have hk2 : ¬ k = r.1 := fun e => hk e.symm
        simp [hk, hk2]

theorem foldl_setRecord_receivedBytes (rs : List (Labels × Uplink)) (reg : Registry)
    (k : Labels) :
    (rs.foldl setRecord reg).receivedBytes k
      = match lastRecord rs k with
        | some u => some (F64.ofInt u.Received)
        | none => reg.receivedBytes k := by
  induction rs generalizing reg with
  | nil => rfl
  | cons r rs ih =>
    rw [List.foldl_cons, ih, lastRecord]
    cases h : lastRecord rs k with
    | some u => rfl
    | none =>
      simp only [setRecord_receivedBytes]
      by_cases hk : r.1 = k
      · simp [hk]
      · have hk2 : ¬ k = r.1 := fun e => hk e.symm
        simp [hk, hk2]

theorem updateMetrics_sentBytes (data : MerakiAPIResponse) (reg : Registry) (k : Labels) :
    (updateMetrics data reg).sentBytes k
      = match lastRecord (records data) k with
        | some u => some (F64.ofInt u.Sent)
        | none => reg.sentBytes k := by
  rw [updateMetrics_eq_foldl, foldl_setRecord_sentBytes]

theorem updateMetrics_receivedBytes (data : MerakiAPIResponse) (reg : Registry) (k : Labels) :
    (updateMetrics data reg).receivedBytes k
      = match lastRecord (records data) k with
        | some u => some (F64.ofInt u.Received)
        | none => reg.receivedBytes k := by
  rw [updateMetrics_eq_foldl, foldl_setRecord_receivedBytes]

theorem lastRecord_eq_none {rs : List (Labels × Uplink)} {k : Labels} :
    lastRecord rs k = none ↔ k ∉ rs.map Prod.fst := by
  induction rs with
  | nil => simp [lastRecord]
  | cons r rs ih =>
    rw [lastRecord]
    cases h : lastRecord rs k with
    | some u =>
      have : ¬ (k ∉ rs.map Prod.fst) := fun hn => by
        rw [ih.mpr hn] at h; exact Option.noConfusion h
      simp only [List.map_cons, List.mem_cons, not_or]
      constructor
      · intro h'; exact Option.noConfusion h'
      · intro h'; exact absurd h'.2 this
    | none =>
      have hn := ih.mp h
      by_cases hk : r.1 = k
      · simp [hk]
      · have hk2 : ¬ k = r.1 := fun e => hk e.symm
        simpa [hk, hk2] using hn

/-- The record `lastRecord` returns is the last one with that key in iteration order. -/
theorem lastRecord_eq_some {rs : List (Labels × Uplink)} {k : Labels} {u : Uplink} :
    lastRecord rs k = some u ↔
      ∃ pre post, rs = pre ++ (k, u) :: post ∧ ∀ r ∈ post, r.1 ≠ k := by
  induction rs generalizing u with
  | nil => simp [lastRecord]
  | cons r rs ih =>
    rw [lastRecord]
    cases h : lastRecord rs k with
    | some v =>
      obtain ⟨pre, post, e, hp⟩ := ih.mp h
      have hmem : ((k, v) : Labels × Uplink) ∈ rs := by rw [e]; simp
      constructor
      · intro hv
        simp only [Option.some.injEq] at hv
        subst hv
        exact ⟨r :: pre, post, by rw [e]; rfl, hp⟩
      · rintro ⟨pre', post', e', hp'⟩
        cases pre' with
        | nil =>
          simp only [List.nil_append, List.cons.injEq] at e'
          obtain ⟨-, e2⟩ := e'
          rw [e2] at hmem
          exact absurd rfl (hp' _ hmem)
        | cons a pre' =>
          simp only [List.cons_append, List.cons.injEq] at e'
          obtain ⟨-, e2⟩ := e'
          have := ih.mpr ⟨pre', post', e2, hp'⟩
          rw [h] at this
          exact this
    | none =>
      have hn := lastRecord_eq_none.mp h
      by_cases hk : r.1 = k
      · simp only [hk, if_true, Option.some.injEq]
        constructor
        · intro e
          subst e
          refine ⟨[], rs, ?_, ?_⟩
          · rw [← hk]; rfl
          · intro r' hr' e'
            exact hn (by rw [← e']; exact List.mem_map_of_mem _ hr')
        · rintro ⟨pre', post', e', hp'⟩
          cases pre' with
          | nil =>
            simp only [List.nil_append, List.cons.injEq] at e'
            rw [e'.1]
          | cons a pre' =>
            simp only [List.cons_append, List.cons.injEq] at e'
            exact absurd (by rw [e'.2]; simp) hn
      · simp only [hk, if_false]
        constructor
        · intro e; exact Option.noConfusion e
        · rintro ⟨pre', post', e', hp'⟩
          cases pre' with
          | nil =>
            simp only [List.nil_append, List.cons.injEq] at e'
            exact absurd (by rw [e'.1]) hk
          | cons a pre' =>
            simp only [List.cons_append, List.cons.injEq] at e'
            exact absurd (by rw [e'.2]; simp) hn

theorem lastRecord_mem {rs : List (Labels × Uplink)} {k : Labels} {u : Uplink}
    (h : lastRecord rs k = some u) : (k, u) ∈ rs := by
  obtain ⟨pre, post, e, -⟩ := lastRecord_eq_some.mp h
  rw [e]; simp

theorem lastRecord_isSome {rs : List (Labels × Uplink)} {k : Labels} :
    (lastRecord rs k).isSome ↔ k ∈ rs.map Prod.fst := by
  rw [← not_iff_not, ← lastRecord_eq_none]
  cases lastRecord rs k <;> simp

theorem lastRecord_of_nodup {rs : List (Labels × Uplink)} (hnd : (rs.map Prod.fst).Nodup)
    {r : Labels × Uplink} (hr : r ∈ rs) : lastRecord rs r.1 = some r.2 := by
  have hk : r.1 ∈ rs.map Prod.fst := List.mem_map_of_mem _ hr
  cases h : lastRecord rs r.1 with
  | none => exact absurd hk (lastRecord_eq_none.mp h)
  | some u =>
    have hm := lastRecord_mem h
    have : (r.1, u) = r := by
      apply List.inj_on_of_nodup_map hnd hm hr
      rfl
    rw [← this]

theorem mem_records {data : MerakiAPIResponse} {r : Labels × Uplink} :
    r ∈ records data ↔ ∃ n ∈ data, ∃ u ∈ n.ByUplink, r = (labelsOf n u, u) := by
  simp only [records, List.mem_flatMap, List.mem_map]
  constructor
  · rintro ⟨n, hn, u, hu, e⟩; exact ⟨n, hn, u, hu, e.symm⟩
  · rintro ⟨n, hn, u, hu, e⟩; exact ⟨n, hn, u, hu, e.symm⟩

theorem mem_seriesKeys {data : MerakiAPIResponse} {k : Labels} :
    k ∈ seriesKeys data ↔ ∃ n ∈ data, ∃ u ∈ n.ByUplink, k = labelsOf n u := by
  simp only [seriesKeys, List.mem_map]
  constructor
  · rintro ⟨r, hr, e⟩
    obtain ⟨n, hn, u, hu, e2⟩ := mem_records.mp hr
    exact ⟨n, hn, u, hu, by rw [← e, e2]⟩
  · rintro ⟨n, hn, u, hu, e⟩
    exact ⟨(labelsOf n u, u), mem_records.mpr ⟨n, hn, u, hu, rfl⟩, e.symm⟩

theorem records_perm_of_forall₂ {s m : MerakiAPIResponse}
    (h : List.Forall₂ Network.Reordered s m) : (records s).Perm (records m) := by
  induction h with
  | nil => exact List.Perm.refl _
  | @cons n n' s m hn _ ih =>
    rw [records_cons, records_cons]
    obtain ⟨h1, h2, h3⟩ := hn
    have hf : (fun uplink => (labelsOf n uplink, uplink))
        = (fun uplink => (labelsOf n' uplink, uplink)) := by
      funext u
      simp only [labelsOf, h1, h2]
    rw [hf]
    exact List.Perm.append (h3.map _) ih

theorem records_perm_of_perm {m t : MerakiAPIResponse} (h : m.Perm t) :
    (records m).Perm (records t) :=
  List.Perm.flatMap_right _ h

theorem records_perm_of_reordering {s t : MerakiAPIResponse} (h : Reordering s t) :
    (records s).Perm (records t) := by
  obtain ⟨m, h1, h2⟩ := h
  exact (records_perm_of_forall₂ h1).trans (records_perm_of_perm h2)

theorem consistent_of_nodup {data : MerakiAPIResponse} (h : (seriesKeys data).Nodup) :
    Consistent data := by
  intro r₁ h₁ r₂ h₂ e
  have : r₁ = r₂ := List.inj_on_of_nodup_map h h₁ h₂ e
  subst this
  exact ⟨rfl, rfl⟩

theorem lastRecord_perm_sent {rs rs' : List (Labels × Uplink)} (hp : rs.Perm rs')
    (hc : ∀ r₁ ∈ rs, ∀ r₂ ∈ rs, r₁.1 = r₂.1 →
      r₁.2.Sent = r₂.2.Sent ∧ r₁.2.Received = r₂.2.Received) (k : Labels) :
    (lastRecord rs' k).map Uplink.Sent = (lastRecord rs k).map Uplink.Sent ∧
    (lastRecord rs' k).map Uplink.Received = (lastRecord rs k).map Uplink.Received := by
  cases h : lastRecord rs k with
  | none =>
    have hn := lastRecord_eq_none.mp h
    have hn' : k ∉ rs'.map Prod.fst := fun hm => hn ((hp.map _).mem_iff.mpr hm)
    rw [lastRecord_eq_none.mpr hn']
    exact ⟨rfl, rfl⟩
  | some u =>
    have hm := lastRecord_mem h
    cases h' : lastRecord rs' k with
    | none =>
      have hn' := lastRecord_eq_none.mp h'
      exact absurd (List.mem_map_of_mem Prod.fst (hp.mem_iff.mp hm)) hn'
    | some u' =>
      have hm' := hp.mem_iff.mpr (lastRecord_mem h')
      obtain ⟨e1, e2⟩ := hc _ hm' _ hm rfl
      simp only [Option.map_some']
      exact ⟨congrArg some e1, congrArg some e2⟩

theorem updateMetrics_iterate (data : MerakiAPIResponse) (reg : Registry) :
    updateMetrics data (updateMetrics data reg) = updateMetrics data reg := by
  apply Registry.ext
  · funext k
    rw [updateMetrics_sentBytes data (updateMetrics data reg), updateMetrics_sentBytes data reg]
    cases lastRecord (records data) k <;> rfl
  · funext k
    rw [updateMetrics_receivedBytes data (updateMetrics data reg),
      updateMetrics_receivedBytes data reg]
    cases lastRecord (records data) k <;> rfl

/-! ## The claims about `updateMetrics` -/

/-- C1, as stated, fails: with pairwise distinct keys and an uplink whose `Sent` is
`2 ^ 53 + 1 = 9007199254740993`, the sent gauge of its key holds `9007199254740992`,
not the uplink's `Sent`. -/
theorem labelMapping_counterexample :
    (seriesKeys hugeSnapshot).Nodup ∧
    (∃ n ∈ hugeSnapshot, ∃ u ∈ n.ByUplink, labelsOf n u = exampleKey ∧
      u.Sent = 9007199254740993 ∧
      (updateMetrics hugeSnapshot Registry.empty).sentBytes exampleKey
        = some ⟨9007199254740992, 0⟩ ∧
      (updateMetrics hugeSnapshot Registry.empty).sentBytes (labelsOf n u)
        ≠ some ⟨u.Sent, 0⟩) := by
  refine ⟨by decide, _, List.mem_singleton.mpr rfl, _, List.mem_singleton.mpr rfl, ?_⟩
  decide

/-- C1, amended: applying `updateMetrics` to the empty registry yields, in both gauge
families, exactly the series keys `(NetworkID, Name, Serial, Interface)` of the
snapshot's uplink records; when these keys are pairwise distinct, each key's sent value
is `float64(Sent)` and its received value `float64(Received)` of that uplink, which is
the counter itself whenever its magnitude is at most `2 ^ 53`; and the scenario snapshot
yields exactly one series pair, keyed `(N1, Branch1, S1, wan1)`, with sent 100 and
received 200. -/
theorem labelMapping (data : MerakiAPIResponse) :
    (∀ k, ((updateMetrics data Registry.empty).sentBytes k).isSome ↔
      ∃ n ∈ data, ∃ u ∈ n.ByUplink, k = labelsOf n u) ∧
    (∀ k, ((updateMetrics data Registry.empty).receivedBytes k).isSome ↔
      ∃ n ∈ data, ∃ u ∈ n.ByUplink, k = labelsOf n u) ∧
    ((seriesKeys data).Nodup → ∀ n ∈ data, ∀ u ∈ n.ByUplink,
      (updateMetrics data Registry.empty).sentBytes (labelsOf n u)
        = some (F64.ofInt u.Sent) ∧
      (updateMetrics data Registry.empty).receivedBytes (labelsOf n u)
        = some (F64.ofInt u.Received) ∧
      (u.Sent.natAbs ≤ 2 ^ 53 → F64.ofInt u.Sent = ⟨u.Sent, 0⟩) ∧
      (u.Received.natAbs ≤ 2 ^ 53 → F64.ofInt u.Received = ⟨u.Received, 0⟩)) ∧
    (∀ k, (updateMetrics exampleSnapshot Registry.empty).pair k
      = if k = exampleKey then (some ⟨100, 0⟩, some ⟨200, 0⟩) else (none, none)) := by
  refine ⟨?_, ?_, ?_, ?_⟩
  · intro k
    rw [updateMetrics_sentBytes, ← mem_seriesKeys, seriesKeys, ← lastRecord_isSome]
    cases lastRecord (records data) k <;> simp [Registry.empty, GaugeVec.empty]
  · intro k
    rw [updateMetrics_receivedBytes, ← mem_seriesKeys, seriesKeys, ← lastRecord_isSome]
    cases lastRecord (records data) k <;> simp [Registry.empty, GaugeVec.empty]
  · intro hnd n hn u hu
    have hr : ((labelsOf n u, u) : Labels × Uplink) ∈ records data :=
      mem_records.mpr ⟨n, hn, u, hu, rfl⟩
    have hl := lastRecord_of_nodup hnd hr
    simp only at hl
    refine ⟨?_, ?_, F64.ofInt_exact _, F64.ofInt_exact _⟩
    · rw [updateMetrics_sentBytes, hl]
    · rw [updateMetrics_receivedBytes, hl]
  · intro k
    simp only [Registry.pair]
    rw [updateMetrics_sentBytes, updateMetrics_receivedBytes]
    by_cases hk : k = exampleKey
    · subst hk
      rw [if_pos rfl]
      decide
    · rw [if_neg hk]
      have hn : lastRecord (records exampleSnapshot) k = none := by
        apply lastRecord_eq_none.mpr
        intro hm
        have : k ∈ [exampleKey] := hm
        exact hk (List.mem_singleton.mp this)
      rw [hn]
      rfl

/-- C3: after `updateMetrics`, every series key present before is still present, every
key that does not occur in the snapshot keeps exactly its previous sent and received
values, and the key set is the previous key set united with the snapshot's keys (in both
families).  In particular, reconciling a snapshot containing series `A` and `B` and then
one containing only `B` leaves the values of `A` unchanged and sets those of `B` to the
gauge values of the later snapshot's (last) record for `B`. -/
theorem staleSeriesRetention (reg : Registry) (data : MerakiAPIResponse) :
    (∀ k, (reg.sentBytes k).isSome → ((updateMetrics data reg).sentBytes k).isSome) ∧
    (∀ k, (reg.receivedBytes k).isSome → ((updateMetrics data reg).receivedBytes k).isSome) ∧
    (∀ k, k ∉ seriesKeys data →
      (updateMetrics data reg).sentBytes k = reg.sentBytes k ∧
      (updateMetrics data reg).receivedBytes k = reg.receivedBytes k) ∧
    (∀ k, ((updateMetrics data reg).sentBytes k).isSome ↔
      (reg.sentBytes k).isSome ∨ k ∈ seriesKeys data) ∧
    (∀ k, ((updateMetrics data reg).receivedBytes k).isSome ↔
      (reg.receivedBytes k).isSome ∨ k ∈ seriesKeys data) ∧
    (∀ (later : MerakiAPIResponse) (A B : Labels),
      A ∈ seriesKeys data → B ∈ seriesKeys data → A ≠ B →
      B ∈ seriesKeys later → (∀ k ∈ seriesKeys later, k = B) →
      (updateMetrics later (updateMetrics data reg)).pair A = (updateMetrics data reg).pair A ∧
      ∃ pre u post, records later = pre ++ (B, u) :: post ∧ (∀ r ∈ post, r.1 ≠ B) ∧
        (updateMetrics later (updateMetrics data reg)).pair B
          = (some (F64.ofInt u.Sent), some (F64.ofInt u.Received))) := by
  have key : ∀ (d : MerakiAPIResponse) (r : Registry) (k : Labels), k ∉ seriesKeys d →
      (updateMetrics d r).sentBytes k = r.sentBytes k ∧
      (updateMetrics d r).receivedBytes k = r.receivedBytes k := by
    intro d r k hk
    rw [updateMetrics_sentBytes, updateMetrics_receivedBytes, lastRecord_eq_none.mpr hk]
    exact ⟨rfl, rfl⟩
  have sentSome : ∀ k, ((updateMetrics data reg).sentBytes k).isSome ↔
      (reg.sentBytes k).isSome ∨ k ∈ seriesKeys data := by
    intro k
    rw [updateMetrics_sentBytes, seriesKeys, ← lastRecord_isSome]
    cases lastRecord (records data) k <;> simp
  have recvSome : ∀ k, ((updateMetrics data reg).receivedBytes k).isSome ↔
      (reg.receivedBytes k).isSome ∨ k ∈ seriesKeys data := by
    intro k
    rw [updateMetrics_receivedBytes, seriesKeys, ← lastRecord_isSome]
    cases lastRecord (records data) k <;> simp
  refine ⟨fun k h => (sentSome k).mpr (Or.inl h), fun k h => (recvSome k).mpr (Or.inl h),
    key data reg, sentSome, recvSome, ?_⟩
  intro later A B _ _ hAB hB hOnly
  constructor
  · have hA : A ∉ seriesKeys later := fun h => hAB (hOnly A h)
    obtain ⟨h1, h2⟩ := key later (updateMetrics data reg) A hA
    simp only [Registry.pair, h1, h2]
  · cases h : lastRecord (records later) B with
    | none => exact absurd hB (lastRecord_eq_none.mp h)
    | some u =>
      obtain ⟨pre, post, e, hp⟩ := lastRecord_eq_some.mp h
      refine ⟨pre, u, post, e, hp, ?_⟩
      simp only [Registry.pair]
      rw [updateMetrics_sentBytes, updateMetrics_receivedBytes, h]

/-- C4: applying `updateMetrics` with the same snapshot `N ≥ 1` times in a row gives the
registry state of applying it once, for every registry state and every snapshot
(repeated series keys with different values included). -/
theorem idempotentReconciliation (reg : Registry) (data : MerakiAPIResponse) (N : Nat)
    (hN : 1 ≤ N) : (updateMetrics data)^[N] reg = updateMetrics data reg := by
  induction N with
  | zero => omega
  | succ N ih =>
    rw [Function.iterate_succ_apply']
    rcases Nat.eq_zero_or_pos N with h0 | hpos
    · subst h0
      rfl
    · rw [ih hpos, updateMetrics_iterate]

/-- Witness for C4: three applications of a snapshot that repeats a key. -/
theorem idempotentReconciliation_witness :
    1 ≤ 3 ∧ (updateMetrics duplicateSnapshot)^[3] Registry.empty
      = updateMetrics duplicateSnapshot Registry.empty :=
  ⟨by decide, idempotentReconciliation Registry.empty duplicateSnapshot 3 (by decide)⟩

/-- C5, as stated, fails: swapping two uplink records that share a series key but carry
different counters changes the final registry state. -/
theorem orderIndependence_counterexample :
    Reordering duplicateSnapshot duplicateSnapshotSwapped ∧
    updateMetrics duplicateSnapshotSwapped Registry.empty
      ≠ updateMetrics duplicateSnapshot Registry.empty := by
  constructor
  · refine ⟨duplicateSnapshotSwapped, ?_, List.Perm.refl _⟩
    exact List.Forall₂.cons ⟨rfl, rfl, List.Perm.swap _ _ _⟩ List.Forall₂.nil
  · intro h
    have h2 := congrArg (fun r => r.sentBytes exampleKey) h
    revert h2
    decide

/-- C5, amended: for every registry state and every snapshot in which records sharing a
series key carry the same counters (in particular every snapshot whose series keys are
pairwise distinct, see `consistent_of_nodup`), applying `updateMetrics` to any reordering of the snapshot yields the
same final registry state as applying the original. -/
theorem orderIndependence (reg : Registry) (s t : MerakiAPIResponse)
    (hr : Reordering s t) (hc' : Consistent s) :
    updateMetrics t reg = updateMetrics s reg := by
  have hp := records_perm_of_reordering hr
  apply Registry.ext
  · funext k
    rw [updateMetrics_sentBytes, updateMetrics_sentBytes]
    have := (lastRecord_perm_sent hp hc' k).1
    cases h : lastRecord (records s) k <;> cases h' : lastRecord (records t) k <;>
      simp_all
  · funext k
    rw [updateMetrics_receivedBytes, updateMetrics_receivedBytes]
    have := (lastRecord_perm_sent hp hc' k).2
    cases h : lastRecord (records s) k <;> cases h' : lastRecord (records t) k <;>
      simp_all

/-- Witness for C5: a snapshot with three distinct keys, networks and uplinks reordered. -/
theorem orderIndependence_witness :
    Reordering distinctSnapshot distinctSnapshotReordered ∧
    Consistent distinctSnapshot ∧
    updateMetrics distinctSnapshotReordered Registry.empty
      = updateMetrics distinctSnapshot Registry.empty :=
  have hr : Reordering distinctSnapshot distinctSnapshotReordered :=
    ⟨[{ NetworkID := "N1", Name := "Branch1",
        ByUplink := [{ Serial := "S1", Interface := "wan2", Sent := 3, Received := 4 },
                     { Serial := "S1", Interface := "wan1", Sent := 1, Received := 2 }] },
      { NetworkID := "N2", Name := "Branch2",
        ByUplink := [{ Serial := "S2", Interface := "wan1", Sent := 5, Received := 6 }] }],
     List.Forall₂.cons ⟨rfl, rfl, List.Perm.swap _ _ _⟩
       (List.Forall₂.cons ⟨rfl, rfl, List.Perm.refl _⟩ List.Forall₂.nil),
     List.Perm.swap _ _ _⟩
  have hc : Consistent distinctSnapshot := consistent_of_nodup (by decide)
  ⟨hr, hc, orderIndependence Registry.empty _ _ hr hc⟩

/-- C10: for every registry state, every snapshot and every series key occurring in the
snapshot, after `updateMetrics` the key's sent and received values are both taken from
one single uplink record: the last record with that key in iteration order (networks in
sequence order, uplinks in sequence order within each). -/
theorem lastWriteWins (reg : Registry) (data : MerakiAPIResponse) (k : Labels)
    (hk : k ∈ seriesKeys data) :
    ∃ pre u post, records data = pre ++ (k, u) :: post ∧ (∀ r ∈ post, r.1 ≠ k) ∧
      (updateMetrics data reg).sentBytes k = some (F64.ofInt u.Sent) ∧
      (updateMetrics data reg).receivedBytes k = some (F64.ofInt u.Received) := by
  cases h : lastRecord (records data) k with
  | none => exact absurd hk (lastRecord_eq_none.mp h)
  | some u =>
    obtain ⟨pre, post, e, hp⟩ := lastRecord_eq_some.mp h
    refine ⟨pre, u, post, e, hp, ?_, ?_⟩
    · rw [updateMetrics_sentBytes, h]
    · rw [updateMetrics_receivedBytes, h]

/-- Witness for C10: a key occurring twice; the second record wins. -/
theorem lastWriteWins_witness :
    exampleKey ∈ seriesKeys duplicateSnapshot ∧
    ∃ pre u post, records duplicateSnapshot = pre ++ (exampleKey, u) :: post ∧
      (∀ r ∈ post, r.1 ≠ exampleKey) ∧
      (updateMetrics duplicateSnapshot Registry.empty).sentBytes exampleKey
        = some (F64.ofInt u.Sent) ∧
      (updateMetrics duplicateSnapshot Registry.empty).receivedBytes exampleKey
        = some (F64.ofInt u.Received) :=
  ⟨by decide, lastWriteWins Registry.empty duplicateSnapshot exampleKey (by decide)⟩

/-! ## The scheduler cycle -/

theorem schedulerCycle_of_fails {up : Upstream} {organizationID apiKey : String}
    {interval : Int} (h : FetchFails up organizationID apiKey (timespan interval))
    (reg : Registry) : schedulerCycle organizationID apiKey interval reg up = reg := by
  unfold schedulerCycle fetchMerakiData
  rcases h with ⟨err, h⟩ | ⟨req, h, ⟨err, h2⟩ | ⟨resp, h2, h3 | ⟨h3, err, h4⟩⟩⟩
  · simp only [h]
  · simp only [h, sentRequest] at h2 ⊢
    simp only [h2]
  · simp only [h, sentRequest] at h2 ⊢
    simp only [h2, h3, ne_eq, not_false_eq_true, if_true]
  · simp only [h, sentRequest] at h2 ⊢
    simp only [h2, h3, h4, ne_eq, not_true_eq_false, if_false]

theorem schedulerCycle_of_ok {up : Upstream} {organizationID apiKey : String}
    {interval : Int} {data : MerakiAPIResponse}
    (h : FetchOK up organizationID apiKey (timespan interval) data)
    (reg : Registry) :
    schedulerCycle organizationID apiKey interval reg up = updateMetrics data reg := by
  unfold schedulerCycle fetchMerakiData
  obtain ⟨req, resp, h1, h2, h3, h4⟩ := h
  simp only [h1, sentRequest] at h2 ⊢
  simp only [h2, h3, h4, ne_eq, not_true_eq_false, if_false]

/-- The fetch returns `data` exactly when the request is created, the response has status
200 and the body decodes to `data`. -/
theorem fetchMerakiData_eq_ok_iff (up : Upstream) (organizationID apiKey interval : String)
    (data : MerakiAPIResponse) :
    fetchMerakiData up organizationID apiKey interval = .ok data ↔
      FetchOK up organizationID apiKey interval data := by
  unfold fetchMerakiData FetchOK sentRequest
  cases h1 : up.NewRequestWithContext "GET" (requestURL organizationID interval) with
  | error err => simp [h1]
  | ok req =>
    cases h2 : up.Do ((req.headerAdd "Accept" "application/json").headerAdd "Authorization"
        ("Bearer " ++ apiKey)) with
    | error err => simp [h1, h2]
    | ok resp =>
      by_cases h3 : resp.StatusCode = 200
      · cases h4 : resp.Decode with
        | error err => simp [h1, h2, h3, h4]
        | ok d => simp [h1, h2, h3, h4]
      · simp [h1, h2, h3]

/-- The fetch returns an error exactly in the four failure cases. -/
theorem fetchMerakiData_error_iff (up : Upstream) (organizationID apiKey interval : String) :
    (∃ err, fetchMerakiData up organizationID apiKey interval = .error err) ↔
      FetchFails up organizationID apiKey interval := by
  unfold fetchMerakiData FetchFails sentRequest
  cases h1 : up.NewRequestWithContext "GET" (requestURL organizationID interval) with
  | error err => simp [h1]
  | ok req =>
    cases h2 : up.Do ((req.headerAdd "Accept" "application/json").headerAdd "Authorization"
        ("Bearer " ++ apiKey)) with
    | error err => simp [h1, h2]
    | ok resp =>
      by_cases h3 : resp.StatusCode = 200
      · cases h4 : resp.Decode with
        | error err => simp [h1, h2, h3, h4]
        | ok d => simp [h1, h2, h3, h4]
      · simp [h1, h2, h3]

theorem fetchOK_ok (data : MerakiAPIResponse) (organizationID apiKey interval : String) :
    FetchOK (Upstream.ok data) organizationID apiKey interval data :=
  ⟨_, _, rfl, rfl, rfl, rfl⟩

theorem fetchFails_failing (f : FetchFailure) (hf : ∀ code body, f = .status code body → code ≠ 200)
    (organizationID apiKey interval : String) :
    FetchFails (Upstream.failing f) organizationID apiKey interval := by
  cases f with
  | newRequest err => exact Or.inl ⟨err, rfl⟩
  | transport err => exact Or.inr ⟨_, rfl, Or.inl ⟨err, rfl⟩⟩
  | status code body => exact Or.inr ⟨_, rfl, Or.inr ⟨_, rfl, Or.inl (hf code body rfl)⟩⟩
  | decode err => exact Or.inr ⟨_, rfl, Or.inr ⟨_, rfl, Or.inr ⟨rfl, err, rfl⟩⟩⟩

/-- C2: a scheduler cycle whose fetch fails (request creation error, transport error,
status code other than 200, or body decode error) leaves the registry exactly as it was.
Hence the cycles fetch-OK(`s1`), fetch-FAIL end in the registry of fetch-OK(`s1`) alone,
and the cycles fetch-OK(`s1`), fetch-FAIL, fetch-OK(`s2`) end in the registry of
fetch-OK(`s1`), fetch-OK(`s2`), in which every series key of `s2` carries the gauge
values of the (last) record of `s2` with that key. -/
theorem fetchFailureIsolation (organizationID apiKey : String) (interval : Int)
    (reg : Registry) (up1 upFail up2 : Upstream) (s1 s2 : MerakiAPIResponse)
    (h1 : FetchOK up1 organizationID apiKey (timespan interval) s1)
    (hf : FetchFails upFail organizationID apiKey (timespan interval))
    (h2 : FetchOK up2 organizationID apiKey (timespan interval) s2) :
    schedulerCycle organizationID apiKey interval reg upFail = reg ∧
    runScheduler organizationID apiKey interval [up1] reg = updateMetrics s1 reg ∧
    runScheduler organizationID apiKey interval [up1, upFail] reg
      = runScheduler organizationID apiKey interval [up1] reg ∧
    runScheduler organizationID apiKey interval [up1, upFail, up2] reg
      = runScheduler organizationID apiKey interval [up1, up2] reg ∧
    runScheduler organizationID apiKey interval [up1, up2] reg
      = updateMetrics s2 (updateMetrics s1 reg) ∧
    (∀ k ∈ seriesKeys s2, ∃ pre u post, records s2 = pre ++ (k, u) :: post ∧
      (∀ r ∈ post, r.1 ≠ k) ∧
      (runScheduler organizationID apiKey interval [up1, upFail, up2] reg).pair k
        = (some (F64.ofInt u.Sent), some (F64.ofInt u.Received))) := by
  have e1 : runScheduler organizationID apiKey interval [up1] reg = updateMetrics s1 reg := by
    simp only [runScheduler, List.foldl_cons, List.foldl_nil, schedulerCycle_of_ok h1]
  have e2 : runScheduler organizationID apiKey interval [up1, upFail] reg
      = updateMetrics s1 reg := by
    simp only [runScheduler, List.foldl_cons, List.foldl_nil, schedulerCycle_of_ok h1,
      schedulerCycle_of_fails hf]
  have e3 : runScheduler organizationID apiKey interval [up1, upFail, up2] reg
      = updateMetrics s2 (updateMetrics s1 reg) := by
    simp only [runScheduler, List.foldl_cons, List.foldl_nil, schedulerCycle_of_ok h1,
      schedulerCycle_of_fails hf, schedulerCycle_of_ok h2]
  have e4 : runScheduler organizationID apiKey interval [up1, up2] reg
      = updateMetrics s2 (updateMetrics s1 reg) := by
    simp only [runScheduler, List.foldl_cons, List.foldl_nil, schedulerCycle_of_ok h1,
      schedulerCycle_of_ok h2]
  refine ⟨schedulerCycle_of_fails hf reg, e1, by rw [e2, e1], by rw [e3, e4], e4, ?_⟩
  intro k hk
  cases h : lastRecord (records s2) k with
  | none => exact absurd hk (lastRecord_eq_none.mp h)
  | some u =>
    obtain ⟨pre, post, e, hp⟩ := lastRecord_eq_some.mp h
    refine ⟨pre, u, post, e, hp, ?_⟩
    rw [e3]
    simp only [Registry.pair]
    rw [updateMetrics_sentBytes, updateMetrics_receivedBytes, h]

/-- Witness for C2: a first snapshot, then status 500 with a well-formed body, then a
second snapshot. -/
theorem fetchFailureIsolation_witness :
    FetchOK (Upstream.ok oldSnapshot) "org" "key" (timespan (60 * Second)) oldSnapshot ∧
    FetchFails (Upstream.failing (.status 500 (.ok hugeSnapshot))) "org" "key"
      (timespan (60 * Second)) ∧
    FetchOK (Upstream.ok newSnapshot) "org" "key" (timespan (60 * Second)) newSnapshot ∧
    runScheduler "org" "key" (60 * Second)
        [Upstream.ok oldSnapshot, Upstream.failing (.status 500 (.ok hugeSnapshot))]
        Registry.empty
      = runScheduler "org" "key" (60 * Second) [Upstream.ok oldSnapshot] Registry.empty :=
  have h1 := fetchOK_ok oldSnapshot "org" "key" (timespan (60 * Second))
  have hf : FetchFails (Upstream.failing (.status 500 (.ok hugeSnapshot))) "org" "key"
      (timespan (60 * Second)) :=
    Or.inr ⟨_, rfl, Or.inr ⟨_, rfl, Or.inl (by decide)⟩⟩
  have h2 := fetchOK_ok newSnapshot "org" "key" (timespan (60 * Second))
  ⟨h1, hf, h2,
    (fetchFailureIsolation "org" "key" (60 * Second) Registry.empty _ _ _ _ _ h1 hf h2).2.2.1⟩

/-! ## Individual writes and concurrent scrapes -/

theorem applyWrites_append (a b : List Write) (reg : Registry) :
    applyWrites (a ++ b) reg = applyWrites b (applyWrites a reg) := by
  simp only [applyWrites, List.foldl_append]

theorem applyWrites_recordWrites (r : Labels × Uplink) (reg : Registry) :
    applyWrites (recordWrites r) reg = setRecord reg r := rfl

theorem applyWrites_flatMap (rs : List (Labels × Uplink)) (reg : Registry) :
    applyWrites (rs.flatMap recordWrites) reg = rs.foldl setRecord reg := by
  induction rs generalizing reg with
  | nil => rfl
  | cons r rs ih =>
    rw [List.flatMap_cons, applyWrites_append, applyWrites_recordWrites, ih, List.foldl_cons]

/-- Running all writes is `updateMetrics`. -/
theorem applyWrites_updateMetricsWrites (data : MerakiAPIResponse) (reg : Registry) :
    applyWrites (updateMetricsWrites data) reg = updateMetrics data reg := by
  rw [updateMetricsWrites, applyWrites_flatMap, updateMetrics_eq_foldl]

theorem mem_updateMetricsWrites {data : MerakiAPIResponse} {w : Write}
    (hw : w ∈ updateMetricsWrites data) :
    ∃ r ∈ records data,
      w = .sentWith r.1 ∨ w = .sentSet r.1 (F64.ofInt r.2.Sent) ∨
      w = .receivedWith r.1 ∨ w = .receivedSet r.1 (F64.ofInt r.2.Received) := by
  unfold updateMetricsWrites at hw
  obtain ⟨r, hr, hw⟩ := List.mem_flatMap.mp hw
  refine ⟨r, hr, ?_⟩
  simpa [recordWrites] using hw

theorem gaugeValueOfRun_with {data : MerakiAPIResponse} {counter : Uplink → Int}
    {g : GaugeVec} {old : Labels → Option F64}
    (h : ∀ k, GaugeValueOfRun data counter k (old k) (g k)) (l k : Labels) :
    GaugeValueOfRun data counter k (old k) ((g.With l) k) := by
  unfold GaugeVec.With
  by_cases hk : k = l
  · subst hk
    rw [if_pos rfl]
    cases hg : g k with
    | some v => simpa [hg] using h k
    | none =>
      have hk := h k
      rw [hg] at hk
      rcases hk with e | ⟨-, e⟩ | ⟨r, -, -, e⟩
      · exact Or.inr (Or.inl ⟨e.symm, rfl⟩)
      · exact Option.noConfusion e
      · exact Option.noConfusion e
  · rw [if_neg hk]
    exact h k

theorem gaugeValueOfRun_set {data : MerakiAPIResponse} {counter : Uplink → Int}
    {g : GaugeVec} {old : Labels → Option F64}
    (h : ∀ k, GaugeValueOfRun data counter k (old k) (g k))
    (r : Labels × Uplink) (hr : r ∈ records data) (k : Labels) :
    GaugeValueOfRun data counter k (old k) ((g.Set r.1 (F64.ofInt (counter r.2))) k) := by
  unfold GaugeVec.Set
  by_cases hk : k = r.1
  · subst hk
    rw [if_pos rfl]
    cases hg : g r.1 with
    | some v => exact Or.inr (Or.inr ⟨r, hr, rfl, rfl⟩)
    | none => simpa [hg] using h r.1
  · rw [if_neg hk]
    exact h k

/-- Every single write of `updateMetrics data` keeps each gauge within the values of
the run. -/
theorem gaugeValueOfRun_apply {data : MerakiAPIResponse} {reg σ : Registry} {w : Write}
    (hw : w ∈ updateMetricsWrites data)
    (h : (∀ k, GaugeValueOfRun data Uplink.Sent k (reg.sentBytes k) (σ.sentBytes k)) ∧
      ∀ k, GaugeValueOfRun data Uplink.Received k (reg.receivedBytes k) (σ.receivedBytes k)) :
    (∀ k, GaugeValueOfRun data Uplink.Sent k (reg.sentBytes k)
        ((Write.apply σ w).sentBytes k)) ∧
      ∀ k, GaugeValueOfRun data Uplink.Received k (reg.receivedBytes k)
        ((Write.apply σ w).receivedBytes k) := by
  obtain ⟨r, hr, e | e | e | e⟩ := mem_updateMetricsWrites hw <;> subst e
  · exact ⟨fun k => gaugeValueOfRun_with h.1 r.1 k, h.2⟩
  · exact ⟨fun k => gaugeValueOfRun_set h.1 r hr k, h.2⟩
  · exact ⟨h.1, fun k => gaugeValueOfRun_with h.2 r.1 k⟩
  · exact ⟨h.1, fun k => gaugeValueOfRun_set h.2 r hr k⟩

theorem gaugeValueOfRun_applyWrites {data : MerakiAPIResponse} {reg : Registry}
    (ws : List Write) (hws : ∀ w ∈ ws, w ∈ updateMetricsWrites data) (σ : Registry)
    (h : (∀ k, GaugeValueOfRun data Uplink.Sent k (reg.sentBytes k) (σ.sentBytes k)) ∧
      ∀ k, GaugeValueOfRun data Uplink.Received k (reg.receivedBytes k) (σ.receivedBytes k)) :
    (∀ k, GaugeValueOfRun data Uplink.Sent k (reg.sentBytes k)
        ((applyWrites ws σ).sentBytes k)) ∧
      ∀ k, GaugeValueOfRun data Uplink.Received k (reg.receivedBytes k)
        ((applyWrites ws σ).receivedBytes k) := by
  induction ws generalizing σ with
  | nil => exact h
  | cons w ws ih =>
    have e : applyWrites (w :: ws) σ = applyWrites ws (Write.apply σ w) := rfl
    rw [e]
    exact ih (fun w' hw' => hws w' (List.mem_cons_of_mem _ hw')) _
      (gaugeValueOfRun_apply (hws w (List.mem_cons_self _ _)) h)

/-- In every state of the run each gauge holds a value of the run. -/
theorem gaugeValueOfRun_registryStates {data : MerakiAPIResponse} {reg σ : Registry}
    (hσ : σ ∈ registryStates data reg) :
    (∀ k, GaugeValueOfRun data Uplink.Sent k (reg.sentBytes k) (σ.sentBytes k)) ∧
      ∀ k, GaugeValueOfRun data Uplink.Received k (reg.receivedBytes k) (σ.receivedBytes k) := by
  unfold registryStates at hσ
  obtain ⟨p, hp, rfl⟩ := List.mem_map.mp hσ
  rw [List.mem_inits] at hp
  exact gaugeValueOfRun_applyWrites p (fun w hw => hp.subset hw) reg
    ⟨fun _ => Or.inl rfl, fun _ => Or.inl rfl⟩

theorem mem_renderedPairs {data : MerakiAPIResponse} {reg : Registry} {k : Labels}
    {shown : Option F64 × Option F64} :
    shown ∈ renderedPairs data reg k ↔
      ∃ σ₁ ∈ registryStates data reg, ∃ σ₂ ∈ registryStates data reg,
        shown = (σ₁.sentBytes k, σ₂.receivedBytes k) := by
  unfold renderedPairs
  simp only [List.mem_flatMap, List.mem_map]
  constructor
  · rintro ⟨σ₁, h₁, σ₂, h₂, e⟩; exact ⟨σ₁, h₁, σ₂, h₂, e.symm⟩
  · rintro ⟨σ₁, h₁, σ₂, h₂, e⟩; exact ⟨σ₁, h₁, σ₂, h₂, e.symm⟩

theorem registryStates_first (data : MerakiAPIResponse) (reg : Registry) :
    reg ∈ registryStates data reg := by
  unfold registryStates
  exact List.mem_map.mpr ⟨[], (List.mem_inits _ _).mpr ( List.nil_prefix), rfl⟩

theorem registryStates_last (data : MerakiAPIResponse) (reg : Registry) :
    updateMetrics data reg ∈ registryStates data reg := by
  unfold registryStates
  exact List.mem_map.mpr ⟨updateMetricsWrites data,
    (List.mem_inits _ _).mpr (List.prefix_refl _), applyWrites_updateMetricsWrites data reg⟩

/-- C6, as stated, fails: while `updateMetrics` rewrites a series from `(1, 1)` to
`(2, 2)`, a concurrent scrape can show the new sent value `2` with the old received
value `1` for that key, and also the old sent value `1` with the new received value `2`:
neither is the old pair nor the pair of one record. -/
theorem atomicPairUpdate_counterexample :
    (updateMetrics oldSnapshot Registry.empty).pair exampleKey
      = (some ⟨1, 0⟩, some ⟨1, 0⟩) ∧
    (updateMetrics newSnapshot (updateMetrics oldSnapshot Registry.empty)).pair exampleKey
      = (some ⟨2, 0⟩, some ⟨2, 0⟩) ∧
    (some ⟨2, 0⟩, some ⟨1, 0⟩)
      ∈ renderedPairs newSnapshot (updateMetrics oldSnapshot Registry.empty) exampleKey ∧
    (some ⟨1, 0⟩, some ⟨2, 0⟩)
      ∈ renderedPairs newSnapshot (updateMetrics oldSnapshot Registry.empty) exampleKey ∧
    ¬ Untorn newSnapshot (updateMetrics oldSnapshot Registry.empty) exampleKey
        (some ⟨2, 0⟩, some ⟨1, 0⟩) ∧
    ¬ Untorn newSnapshot (updateMetrics oldSnapshot Registry.empty) exampleKey
        (some ⟨1, 0⟩, some ⟨2, 0⟩) := by
  have hold : (updateMetrics oldSnapshot Registry.empty).pair exampleKey
      = (some ⟨1, 0⟩, some ⟨1, 0⟩) := by decide
  refine ⟨hold, by decide, by decide, by decide, ?_, ?_⟩
  · rintro (h | ⟨r, hr, -, h⟩)
    · rw [hold] at h
      revert h
      decide
    · have hr2 : r ∈ [((exampleKey,
          { Serial := "S1", Interface := "wan1", Sent := 2, Received := 2 }) :
            Labels × Uplink)] := hr
      rw [List.mem_singleton] at hr2
      subst hr2
      revert h
      decide
  · rintro (h | ⟨r, hr, -, h⟩)
    · rw [hold] at h
      revert h
      decide
    · have hr2 : r ∈ [((exampleKey,
          { Serial := "S1", Interface := "wan1", Sent := 2, Received := 2 }) :
            Labels × Uplink)] := hr
      rw [List.mem_singleton] at hr2
      subst hr2
      revert h
      decide

/-- C6, amended: the sent and the received gauge of a series are written, and read by a
scrape, independently of each other.  The individual gauge operations of `updateMetrics`
add up to `updateMetrics`; in every pair a scrape can show for a key while
`updateMetrics` runs, the sent value is one the sent gauge held at some instant of the
run (its value from before, `0` for a series just created, or `float64(Sent)` of a record
of the snapshot with that key) and the received value is one the received gauge held at
some instant of the run, in any combination; the pair from before `updateMetrics` and the
pair after it are among the pairs that can be shown, and those two are untorn. -/
theorem atomicPairUpdate (data : MerakiAPIResponse) (reg : Registry) :
    applyWrites (updateMetricsWrites data) reg = updateMetrics data reg ∧
    (∀ k, ∀ shown ∈ renderedPairs data reg k,
      GaugeValueOfRun data Uplink.Sent k (reg.sentBytes k) shown.1 ∧
      GaugeValueOfRun data Uplink.Received k (reg.receivedBytes k) shown.2) ∧
    (∀ σ₁ ∈ registryStates data reg, ∀ σ₂ ∈ registryStates data reg, ∀ k,
      (σ₁.sentBytes k, σ₂.receivedBytes k) ∈ renderedPairs data reg k) ∧
    (∀ k, reg.pair k ∈ renderedPairs data reg k ∧
      (updateMetrics data reg).pair k ∈ renderedPairs data reg k ∧
      Untorn data reg k (reg.pair k) ∧
      Untorn data reg k ((updateMetrics data reg).pair k)) := by
  refine ⟨applyWrites_updateMetricsWrites data reg, ?_, ?_, ?_⟩
  · intro k shown hs
    obtain ⟨σ₁, h₁, σ₂, h₂, rfl⟩ := mem_renderedPairs.mp hs
    exact ⟨(gaugeValueOfRun_registryStates h₁).1 k, (gaugeValueOfRun_registryStates h₂).2 k⟩
  · intro σ₁ h₁ σ₂ h₂ k
    exact mem_renderedPairs.mpr ⟨σ₁, h₁, σ₂, h₂, rfl⟩
  · intro k
    refine ⟨?_, ?_, Or.inl rfl, ?_⟩
    · exact mem_renderedPairs.mpr
        ⟨reg, registryStates_first data reg, reg, registryStates_first data reg, rfl⟩
    · exact mem_renderedPairs.mpr ⟨_, registryStates_last data reg, _,
        registryStates_last data reg, rfl⟩
    · unfold Untorn Registry.pair
      rw [updateMetrics_sentBytes, updateMetrics_receivedBytes]
      cases h : lastRecord (records data) k with
      | none => exact Or.inl rfl
      | some u => exact Or.inr ⟨(k, u), lastRecord_mem h, rfl, rfl⟩

/-! ## Start-up and the `timespan` argument -/

theorem durationOfSeconds_eq (i : Int) (h1 : -9223372036 ≤ i) (h2 : i ≤ 9223372036) :
    durationOfSeconds i = i * 1000000000 := by
  unfold durationOfSeconds wrapInt64 Second
  omega

/-- As long as `time.Duration(i) * time.Second` does not overflow, the `timespan`
argument is the decimal rendering of `i`. -/
theorem timespan_durationOfSeconds (i : Int) (h1 : -9223372036 ≤ i) (h2 : i ≤ 9223372036) :
    timespan (durationOfSeconds i) = Itoa i := by
  rw [durationOfSeconds_eq i h1 h2]
  unfold timespan Seconds Second
  rw [Int.mul_tdiv_cancel _ (by norm_num), Int.mul_tmod_left]
  have hi : F64.ofInt i = ⟨i, 0⟩ := F64.ofInt_exact_lt i (by omega)
  have h0 : F64.div (F64.ofInt 0) (F64.ofInt 1000000000) = ⟨0, 0⟩ := by decide
  simp only [h0, hi]
  have ha : F64.add ⟨i, 0⟩ ⟨0, 0⟩ = F64.ofInt i := by
    simp [F64.add, F64.ofInt]
  rw [ha, hi]
  simp [F64.toInt]

theorem Atoi_empty : Atoi "" = none := by decide

/-- Sample behaviour of `strconv.Atoi`: signs and leading zeros are accepted; the empty
string, a lone sign, blanks, underscores, hexadecimal, fractions and values outside
`int64` are errors. -/
theorem Atoi_examples :
    Atoi "60" = some 60 ∧ Atoi "-5" = some (-5) ∧ Atoi "+7" = some 7 ∧ Atoi "007" = some 7 ∧
    Atoi "-" = none ∧ Atoi " 5" = none ∧ Atoi "1_0" = none ∧ Atoi "0x10" = none ∧
    Atoi "1.5" = none ∧ Atoi "abc" = none ∧
    Atoi "9223372036854775807" = some 9223372036854775807 ∧
    Atoi "9223372036854775808" = none ∧
    Atoi "-9223372036854775808" = some (-9223372036854775808) ∧
    Atoi "-9223372036854775809" = none := by
  decide

theorem Atoi_ne_empty {s : String} {i : Int} (h : Atoi s = some i) : s ≠ "" := by
  intro e
  rw [e, Atoi_empty] at h
  exact Option.noConfusion h

theorem main_of_org_empty (env : Environ)
    (h : env.MERAKI_ORGANIZATION_ID = "" ∨ env.MERAKI_API_KEY = "") :
    main env =
      [.fatal "MERAKI_ORGANIZATION_ID and MERAKI_API_KEY environment variables are required"] := by
  unfold main
  simp only [h, if_true]

theorem main_of_parse_error (env : Environ)
    (h1 : env.MERAKI_ORGANIZATION_ID ≠ "") (h2 : env.MERAKI_API_KEY ≠ "")
    (h3 : env.INTERVAL ≠ "") (h4 : Atoi env.INTERVAL = none) :
    main env = [.fatal ("Invalid INTERVAL value: " ++ env.INTERVAL)] := by
  unfold main parseInterval
  simp only [h1, h2, or_self, if_false, h3, h4, ne_eq, not_false_eq_true, if_true]

theorem main_of_parsed (env : Environ) (i : Int)
    (h1 : env.MERAKI_ORGANIZATION_ID ≠ "") (h2 : env.MERAKI_API_KEY ≠ "")
    (h4 : Atoi env.INTERVAL = some i) :
    main env = startedWith env.MERAKI_ORGANIZATION_ID env.MERAKI_API_KEY
      (durationOfSeconds i) := by
  have h3 := Atoi_ne_empty h4
  unfold main parseInterval startedWith
  simp only [h1, h2, or_self, if_false, h3, h4, ne_eq, not_false_eq_true, if_true]

theorem main_of_default (env : Environ)
    (h1 : env.MERAKI_ORGANIZATION_ID ≠ "") (h2 : env.MERAKI_API_KEY ≠ "")
    (h3 : env.INTERVAL = "") :
    main env = startedWith env.MERAKI_ORGANIZATION_ID env.MERAKI_API_KEY (60 * Second) := by
  unfold main parseInterval startedWith
  simp only [h1, h2, or_self, if_false, h3, ne_eq, not_true_eq_false]

/-- C7 fails on the code at `INTERVAL="9223372037"`, which `strconv.Atoi` accepts:
`time.Duration(9223372037) * time.Second` overflows `int64` and wraps to
`-9223372036709551616` ns, the scheduler is started with that negative interval, and the
request URL carries `timespan=-9223372036` instead of `timespan=9223372037`. -/
theorem timespan_overflow :
    Atoi "9223372037" = some 9223372037 ∧
    main ⟨"org", "key", "9223372037"⟩ = startedWith "org" "key" (-9223372036709551616) ∧
    timespan (-9223372036709551616) = "-9223372036" ∧
    requestURL "org" (timespan (-9223372036709551616)) =
      "https://api.meraki.com/api/v1/organizations/org/appliance/uplinks/usage/byNetwork?timespan=-9223372036" ∧
    Itoa 9223372037 = "9223372037" := by
  refine ⟨by decide, by decide, by decide, by decide, by decide⟩

/-- The default: with `INTERVAL` unset or empty the interval is 60 s and the URL carries
`timespan=60`. -/
theorem timespan_default (organizationID apiKey : String)
    (h1 : organizationID ≠ "") (h2 : apiKey ≠ "") :
    main ⟨organizationID, apiKey, ""⟩ = startedWith organizationID apiKey (60 * Second) ∧
    timespan (60 * Second) = "60" :=
  ⟨main_of_default _ h1 h2 rfl, by decide⟩

/-- C8: start-up ends in `log.Fatalf`, before metrics are registered, before the scheduler
goroutine starts and before `http.ListenAndServe`, if the organization identifier is
empty, or the API key is empty, or `INTERVAL` is non-empty and `strconv.Atoi` rejects it;
in every other case start-up proceeds through all of these steps. -/
theorem startupFailure (env : Environ) :
    ((env.MERAKI_ORGANIZATION_ID = "" ∨ env.MERAKI_API_KEY = "" ∨
        (env.INTERVAL ≠ "" ∧ Atoi env.INTERVAL = none)) →
      (∃ msg, main env = [.fatal msg]) ∧
      Event.registerMetrics ∉ main env ∧
      (∀ o k i, Event.goScheduler o k i ∉ main env) ∧
      (∀ addr, Event.listenAndServe addr ∉ main env)) ∧
    (¬ (env.MERAKI_ORGANIZATION_ID = "" ∨ env.MERAKI_API_KEY = "" ∨
        (env.INTERVAL ≠ "" ∧ Atoi env.INTERVAL = none)) →
      ∃ interval, parseInterval env.INTERVAL = .ok interval ∧
        main env = [.logInterval interval, .registerMetrics,
          .goScheduler env.MERAKI_ORGANIZATION_ID env.MERAKI_API_KEY interval,
          .handleRedirect "/" "/metrics" 301, .handleMetrics "/metrics",
          .listenAndServe ":8080"]) := by
  constructor
  · intro h
    have hf : ∃ msg, main env = [.fatal msg] := by
      by_cases h12 : env.MERAKI_ORGANIZATION_ID = "" ∨ env.MERAKI_API_KEY = ""
      · exact ⟨_, main_of_org_empty env h12⟩
      · have h1 : env.MERAKI_ORGANIZATION_ID ≠ "" := fun e => h12 (Or.inl e)
        have h2 : env.MERAKI_API_KEY ≠ "" := fun e => h12 (Or.inr e)
        rcases h with h | h | ⟨h3, h4⟩
        · exact absurd h h1
        · exact absurd h h2
        · exact ⟨_, main_of_parse_error env h1 h2 h3 h4⟩
    obtain ⟨msg, hm⟩ := hf
    refine ⟨⟨msg, hm⟩, ?_, ?_, ?_⟩
    · rw [hm]; simp
    · intro o k i; rw [hm]; simp
    · intro addr; rw [hm]; simp
  · intro h
    have h1 : env.MERAKI_ORGANIZATION_ID ≠ "" := fun e => h (Or.inl e)
    have h2 : env.MERAKI_API_KEY ≠ "" := fun e => h (Or.inr (Or.inl e))
    by_cases h3 : env.INTERVAL = ""
    · refine ⟨60 * Second, ?_, main_of_default env h1 h2 h3⟩
      simp [parseInterval, h3]
    · cases h4 : Atoi env.INTERVAL with
      | none => exact absurd (Or.inr (Or.inr ⟨h3, h4⟩)) h
      | some i =>
        refine ⟨durationOfSeconds i, ?_, main_of_parsed env i h1 h2 h4⟩
        simp [parseInterval, h3, h4]

/-- The sign of the parsed interval is never examined: whenever `strconv.Atoi` returns a
zero or negative `i` (and identifier and key are set), `main` takes no fatal path and
starts the scheduler goroutine with `time.Duration(i) * time.Second`, for which
`time.Sleep` does not pause. -/
theorem main_of_nonPositive (env : Environ) (i : Int)
    (h1 : env.MERAKI_ORGANIZATION_ID ≠ "") (h2 : env.MERAKI_API_KEY ≠ "")
    (h3 : Atoi env.INTERVAL = some i) (h4 : i ≤ 0) (h5 : -9223372036 ≤ i) :
    main env = startedWith env.MERAKI_ORGANIZATION_ID env.MERAKI_API_KEY (i * 1000000000) ∧
    Sleep (i * 1000000000) = 0 := by
  have e := durationOfSeconds_eq i h5 (by omega)
  refine ⟨by rw [← e]; exact main_of_parsed env i h1 h2 h3, ?_⟩
  unfold Sleep
  rw [if_pos (by omega)]

/-- C9 fails on the code at `INTERVAL="0"` and at `INTERVAL="-5"`: `strconv.Atoi` accepts
both, `main` logs no fatal error, registers the metrics and starts the scheduler
goroutine with the interval `0` resp. `-5 s`; the request URL then carries `timespan=0`
resp. `timespan=-5`, and `time.Sleep` of that interval does not pause, so the loop polls
the upstream back to back. -/
theorem nonPositiveInterval_accepted :
    Atoi "0" = some 0 ∧
    main ⟨"org", "key", "0"⟩ = [.logInterval 0, .registerMetrics,
      .goScheduler "org" "key" 0, .handleRedirect "/" "/metrics" 301,
      .handleMetrics "/metrics", .listenAndServe ":8080"] ∧
    timespan 0 = "0" ∧ Sleep 0 = 0 ∧
    Atoi "-5" = some (-5) ∧
    main ⟨"org", "key", "-5"⟩ = [.logInterval (-5000000000), .registerMetrics,
      .goScheduler "org" "key" (-5000000000), .handleRedirect "/" "/metrics" 301,
      .handleMetrics "/metrics", .listenAndServe ":8080"] ∧
    timespan (-5000000000) = "-5" ∧ Sleep (-5000000000) = 0 ∧
    main ⟨"org", "key", "abc"⟩ = [.fatal "Invalid INTERVAL value: abc"] := by
  refine ⟨by decide, by decide, by decide, by decide, by decide, by decide, by decide,
    by decide, by decide⟩

/-! ## Instances of the conditional statements -/

/-- Witness for C1: a snapshot with three pairwise distinct keys. -/
theorem labelMapping_witness :
    (seriesKeys distinctSnapshot).Nodup ∧
    (updateMetrics distinctSnapshot Registry.empty).sentBytes exampleKeyB
      = some (F64.ofInt 3) ∧
    (updateMetrics distinctSnapshot Registry.empty).receivedBytes exampleKeyB
      = some (F64.ofInt 4) :=
  have h := (labelMapping distinctSnapshot).2.2.1 (by decide)
    { NetworkID := "N1", Name := "Branch1",
      ByUplink := [{ Serial := "S1", Interface := "wan1", Sent := 1, Received := 2 },
                   { Serial := "S1", Interface := "wan2", Sent := 3, Received := 4 }] }
    (by decide)
    { Serial := "S1", Interface := "wan2", Sent := 3, Received := 4 }
    (by decide)
  ⟨by decide, h.1, h.2.1⟩

/-- Witness for C3: series `A` and `B` reconciled, then a snapshot with `B` only. -/
theorem staleSeriesRetention_witness :
    exampleKey ∈ seriesKeys distinctSnapshot ∧
    exampleKeyB ∈ seriesKeys distinctSnapshot ∧
    exampleKey ≠ exampleKeyB ∧
    exampleKeyB ∈ seriesKeys laterSnapshot ∧
    (∀ k ∈ seriesKeys laterSnapshot, k = exampleKeyB) ∧
    (updateMetrics laterSnapshot (updateMetrics distinctSnapshot Registry.empty)).pair exampleKey
      = (updateMetrics distinctSnapshot Registry.empty).pair exampleKey :=
  ⟨by decide, by decide, by decide, by decide, by decide,
    ((staleSeriesRetention Registry.empty distinctSnapshot).2.2.2.2.2 laterSnapshot
      exampleKey exampleKeyB (by decide) (by decide) (by decide) (by decide) (by decide)).1⟩

/-- Witness for C6: the torn pair of the counterexample is made of a sent value and a
received value of the run. -/
theorem atomicPairUpdate_witness :
    (some ⟨2, 0⟩, some ⟨1, 0⟩)
      ∈ renderedPairs newSnapshot (updateMetrics oldSnapshot Registry.empty) exampleKey ∧
    GaugeValueOfRun newSnapshot Uplink.Sent exampleKey
      ((updateMetrics oldSnapshot Registry.empty).sentBytes exampleKey) (some ⟨2, 0⟩) ∧
    GaugeValueOfRun newSnapshot Uplink.Received exampleKey
      ((updateMetrics oldSnapshot Registry.empty).receivedBytes exampleKey) (some ⟨1, 0⟩) :=
  ⟨by decide,
    (atomicPairUpdate newSnapshot (updateMetrics oldSnapshot Registry.empty)).2.1 exampleKey
      (some ⟨2, 0⟩, some ⟨1, 0⟩) (by decide)⟩

/-- Witness for C8: a non-numeric interval is fatal, a numeric one proceeds. -/
theorem startupFailure_witness :
    (∃ msg, main ⟨"org", "key", "abc"⟩ = [Event.fatal msg]) ∧
    (∃ interval, parseInterval "30" = .ok interval ∧
      main ⟨"org", "key", "30"⟩ = [.logInterval interval, .registerMetrics,
        .goScheduler "org" "key" interval,
        .handleRedirect "/" "/metrics" 301, .handleMetrics "/metrics",
        .listenAndServe ":8080"]) :=
  ⟨((startupFailure ⟨"org", "key", "abc"⟩).1 (Or.inr (Or.inr ⟨by decide, by decide⟩))).1,
    (startupFailure ⟨"org", "key", "30"⟩).2 (by decide)⟩

end MerakiExporter
